import Mathlib

/-!
Verification of the AEP data-analysis pipeline (data cleaning, semantic
transformation, top-performer aggregation/ranking, and applicant record
linkage) against its natural-language specification.

Numeric columns are modelled as exact rationals (`ℚ`); the IEEE special
values that matter to the guarded derivations are modelled by the small
domain `FloatVal`.  `pandas.DataFrame.round` rounds half to even at a
fixed number of decimal digits; `roundHalfEven`/`roundTo` model that.
Tabular data is modelled as lists of records; `groupByKey` models
`DataFrame.groupby` with its default `dropna=True` semantics (rows whose
key contains a null belong to no group).  Group order in `groupByKey` is
first-occurrence order; pandas sorts group keys instead, and no theorem
below depends on the order of the groups.  Dates are modelled as natural
numbers (days) ordered as calendar dates are.
-/

namespace AEP

/-! ### Shared numeric helpers -/

/-- Round half to even, the rounding used by `pandas.DataFrame.round`. -/
def roundHalfEven (x : ℚ) : ℤ :=
  let f := ⌊x⌋
  if x - f < 1 / 2 then f
  else if 1 / 2 < x - f then f + 1
  else if f % 2 = 0 then f else f + 1

/-- `DataFrame.round k`: round to `k` decimal digits, half to even. -/
def roundTo (k : ℕ) (x : ℚ) : ℚ :=
  (roundHalfEven (x * 10 ^ k) : ℚ) / 10 ^ k

/-- Arithmetic mean of a list of rationals (pandas `mean` over the
non-null values of a group's column). -/
def qmean (l : List ℚ) : ℚ := l.sum / l.length

/-! ### Grouping (`DataFrame.groupby` with its default `dropna=True`) -/

/-- The distinct keys of a list, each kept at its first occurrence. -/
def uniqueKeys {K : Type} [DecidableEq K] : List K → List K
  | [] => []
  | k :: rest => k :: uniqueKeys (rest.filter (fun k2 => k2 ≠ k))
termination_by l => l.length
decreasing_by
  simp only [List.length_cons]
  exact Nat.lt_succ_of_le (List.length_filter_le _ _)

/-- `DataFrame.groupby(keys)` over a list of rows: one group per distinct
non-null key, holding exactly the rows with that key.  The key function
returns `none` when any key column of the row is null; such rows belong
to no group (`dropna=True`). -/
def groupByKey {α K : Type} [DecidableEq K] (key : α → Option K) (l : List α) :
    List (K × List α) :=
  (uniqueKeys (l.filterMap key)).map (fun k => (k, l.filter (fun a => key a = some k)))

/-! ### Data cleaning (`scripts/data_cleaning.py`) -/

/-- One step of `clean_column_names`: Python's
`str.replace(' - ', '_')`, scanning left to right, non-overlapping. -/
def replaceDashChars : List Char → List Char
  | [] => []
  | [c] => [c]
  | [c, d] => [c, d]
  | c :: d :: e :: rest =>
    if c = ' ' ∧ d = '-' ∧ e = ' ' then '_' :: replaceDashChars rest
    else c :: replaceDashChars (d :: e :: rest)

/-- `str.replace(' ', '_')`. -/
def replaceSpaceChars (l : List Char) : List Char :=
  l.map (fun c => if c = ' ' then '_' else c)

/-- `str.lower()`, as Lean's ASCII `Char.toLower` on each character. -/
def lowerChars (l : List Char) : List Char := l.map Char.toLower

/-- `str.strip()`: drop leading and trailing whitespace. -/
def trimChars (l : List Char) : List Char :=
  ((l.dropWhile Char.isWhitespace).reverse.dropWhile Char.isWhitespace).reverse

/-- `col.strip().replace(' - ', '_').replace(' ', '_').lower()` on the
character list of one column label. -/
def cleanColumnChars (l : List Char) : List Char :=
  lowerChars (replaceSpaceChars (replaceDashChars (trimChars l)))

/-- Normalization of one column label, from `clean_column_names`. -/
def clean_column_name (s : String) : String := ⟨cleanColumnChars s.data⟩

/-- Split a character list at every character satisfying `p`, keeping
empty segments: the splitting underlying Python's `str.split(sep)`. -/
def splitPred (p : Char → Bool) : List Char → List (List Char)
  | [] => [[]]
  | c :: rest =>
    if p c then [] :: splitPred p rest
    else
      match splitPred p rest with
      | [] => [[c]]
      | h :: t => (c :: h) :: t

/-- `parse_name` from `parse_agent_names`: decompose `"LAST,FIRST M"`,
degrading to nulls on missing input or on anything but exactly two
comma-separated segments.  A null cell or non-string cell is `none`;
every input produces a value (the parser cannot raise). -/
def parse_name : Option String → Option String × Option String × Option String
  | none => (none, none, none)
  | some s =>
    let parts := splitPred (fun c => c = ',') (trimChars s.data)
    if parts.length = 2 then
      let last_name := trimChars (parts.getD 0 [])
      let first_part := trimChars (parts.getD 1 [])
      match (splitPred Char.isWhitespace first_part).filter (fun w => w ≠ []) with
      | [] => (some ⟨last_name⟩, none, none)
      | [f] => (some ⟨last_name⟩, some ⟨f⟩, none)
      | f :: g :: rest =>
        let lastTok := (g :: rest).getLast (by simp)
        (some ⟨last_name⟩, some ⟨f⟩,
          match lastTok with
          | [] => none
          | c :: _ => some ⟨[c]⟩)
    else (none, none, none)

/-- A float cell: a finite rational, an infinity, or NaN (also the model
of a null cell, which pandas stores as NaN). -/
inductive FloatVal where
  | nan
  | posInf
  | negInf
  | fin (q : ℚ)
deriving DecidableEq

/-- IEEE comparison `v > 0`. -/
def FloatVal.gtZero : FloatVal → Bool
  | .fin q => 0 < q
  | .posInf => true
  | .negInf => false
  | .nan => false

/-- IEEE comparison `v < np.inf`. -/
def FloatVal.ltInf : FloatVal → Bool
  | .fin _ => true
  | .posInf => false
  | .negInf => true
  | .nan => false

/-- IEEE division of a positive finite constant by a float value. -/
def fdiv (x : ℚ) : FloatVal → FloatVal
  | .fin q => if q = 0 then .posInf else .fin (x / q)
  | .posInf => .fin 0
  | .negInf => .fin 0
  | .nan => .nan

/-- `np.where((aht > 0) & (aht < np.inf), 3600 / aht, 0)` applied to one
handle-time cell, from `add_calculated_metrics`. -/
def calls_per_hour (aht : FloatVal) : FloatVal :=
  if aht.gtZero && aht.ltInf then fdiv 3600 aht else .fin 0

/-- A cleaned performance row, with the columns the name-keyed stages
read: the raw identity field, the parsed name components, the canonical
date, and the per-event scores the candidate analyzer aggregates. -/
structure CleanRow where
  manager_hierarchy_name : Option String
  agent_last_name : Option String
  agent_first_name : Option String
  agent_middle_initial : Option String
  date : Option ℕ
  performance_score : Option ℚ
  cph : ℚ
deriving DecidableEq

/-- Enrich one row with the parsed name columns (`parse_agent_names`). -/
def enrichWithName (r : CleanRow) : CleanRow :=
  let p := parse_name r.manager_hierarchy_name
  { r with agent_last_name := p.1, agent_first_name := p.2.1,
           agent_middle_initial := p.2.2 }

/-- `parse_agent_names`: add the parsed name columns to every row; no row
is dropped. -/
def parse_agent_names (rows : List CleanRow) : List CleanRow :=
  rows.map enrichWithName

/-! ### Semantic transformation (`scripts/semantic_transformation.py`) -/

/-- The four ordinal performance tiers used as `pd.cut` labels. -/
inductive Tier where
  | Needs_Improvement
  | Meets_Expectations
  | Exceeds_Expectations
  | Outstanding
deriving DecidableEq

/-- `pd.cut(score, bins=[0, 60, 75, 90, 100], labels=…,
include_lowest=True)` with pandas' default `right=True`: the intervals
are right-closed, `[0,60], (60,75], (75,90], (90,100]`, and values
outside `[0,100]` get no tier (NaN). -/
def performance_tier (score : ℚ) : Option Tier :=
  if 0 ≤ score ∧ score ≤ 60 then some .Needs_Improvement
  else if 60 < score ∧ score ≤ 75 then some .Meets_Expectations
  else if 75 < score ∧ score ≤ 90 then some .Exceeds_Expectations
  else if 90 < score ∧ score ≤ 100 then some .Outstanding
  else none

/-- One percentage-like column of `standardize_data_types`: when the
column's (null-skipping) maximum exceeds 1 the whole column is divided
by 100, otherwise the column is unchanged. -/
def standardize_pct_column (col : List (Option ℚ)) : List (Option ℚ) :=
  match (col.filterMap id).max? with
  | some m => if 1 < m then col.map (Option.map (fun v => v / 100)) else col
  | none => col

/-! ### Aggregation (`scripts/top_performer_analysis.py`,
`calculate_agent_performance_summary`) -/

/-- A semantically transformed per-event row, with the columns the
aggregator's composite score reads. -/
structure SemRow where
  agent_name : Option String
  agent_first_name : Option String
  agent_last_name : Option String
  performance_date : Option ℕ
  total_interactions : ℚ
  daily_goals_met_rate : ℚ
  overall_performance_score : ℚ
  hourly_interaction_rate : ℚ
  average_handle_time_seconds : ℚ
deriving DecidableEq

/-- The aggregator's group key: the triple
`(agent_name, agent_first_name, agent_last_name)`, null when any
component is null. -/
def summaryKey (r : SemRow) : Option (String × String × String) := do
  let n ← r.agent_name
  let f ← r.agent_first_name
  let l ← r.agent_last_name
  pure (n, f, l)

/-- One agent's aggregate performance record. -/
structure AgentSummary where
  agent_name : String
  agent_first_name : String
  agent_last_name : String
  days_worked : ℕ
  first_performance_date : Option ℕ
  last_performance_date : Option ℕ
  total_interactions_period : ℚ
  avg_daily_interactions : ℚ
  overall_goal_achievement_rate : ℚ
  avg_performance_score : ℚ
  avg_hourly_rate : ℚ
  average_handle_time_seconds_mean : ℚ
  avg_interactions_per_day : ℚ
  composite_performance_score : ℚ
deriving DecidableEq

/-- Aggregate one group: counts, date extrema and per-column means (the
`.agg(…).round(3)` block), then `avg_interactions_per_day` (`.round(1)`)
and the fixed-weight composite score (`.round(4)`). -/
def mkAgentSummary (k : String × String × String) (g : List SemRow) : AgentSummary :=
  let dates := g.filterMap (fun r => r.performance_date)
  let total := roundTo 3 (g.map (fun r => r.total_interactions)).sum
  let goal := roundTo 3 (qmean (g.map (fun r => r.daily_goals_met_rate)))
  let perf := roundTo 3 (qmean (g.map (fun r => r.overall_performance_score)))
  let rate := roundTo 3 (qmean (g.map (fun r => r.hourly_interaction_rate)))
  let aht := roundTo 3 (qmean (g.map (fun r => r.average_handle_time_seconds)))
  { agent_name := k.1
    agent_first_name := k.2.1
    agent_last_name := k.2.2
    days_worked := dates.length
    first_performance_date := dates.min?
    last_performance_date := dates.max?
    total_interactions_period := total
    avg_daily_interactions := roundTo 3 (qmean (g.map (fun r => r.total_interactions)))
    overall_goal_achievement_rate := goal
    avg_performance_score := perf
    avg_hourly_rate := rate
    average_handle_time_seconds_mean := aht
    avg_interactions_per_day := roundTo 1 (total / dates.length)
    composite_performance_score :=
      roundTo 4 (goal * 0.4 + perf / 100 * 0.3 + rate / 20 * 0.2 + (1 - aht / 600) * 0.1) }

/-- `calculate_agent_performance_summary`: group the semantic rows by
agent identity and aggregate each group. -/
def calculate_agent_performance_summary (rows : List SemRow) : List AgentSummary :=
  (groupByKey summaryKey rows).map (fun kg => mkAgentSummary kg.1 kg.2)

/-! ### Ranking (`scripts/top_performer_analysis.py`,
`identify_top_performers`) -/

/-- The descending comparison `nlargest` ranks by. -/
def compositeGE (a b : AgentSummary) : Bool :=
  b.composite_performance_score ≤ a.composite_performance_score

/-- `identify_top_performers`: keep agents with at least 10 days worked,
take the `top_n` largest by composite score (`nlargest`, which sorts
descending and keeps first occurrences among ties), and pair each kept
row with its rank 1, 2, ….  `nlargest` is modelled as a stable
descending sort followed by `take`. -/
def identify_top_performers (top_n : ℕ) (summary : List AgentSummary) :
    List (ℕ × AgentSummary) :=
  let qualified := summary.filter (fun a => 10 ≤ a.days_worked)
  let sorted := qualified.mergeSort compositeGE
  let top := sorted.take top_n
  (List.range' 1 top.length).zip top

/-! ### Record linkage (`scripts/aep_candidate_analysis.py`) -/

/-- `str.strip().str.upper()`, the name normalization both sides of the
join apply. -/
def cleanName (s : String) : String := ⟨(trimChars s.data).map Char.toUpper⟩

/-- One distinct performer produced by `load_aep_performance_data`'s
groupby over the cleaned rows. -/
structure Performer where
  agent_first_name : String
  agent_last_name : String
  first_performance_date : Option ℕ
  avg_performance_score : Option ℚ
  max_performance_score : Option ℚ
  performance_records_count : ℕ
  avg_calls_per_hour : ℚ
  first_name_clean : String
  last_name_clean : String
deriving DecidableEq

/-- The loader's group key `(agent_first_name, agent_last_name)`. -/
def perfKey (r : CleanRow) : Option (String × String) := do
  let f ← r.agent_first_name
  let l ← r.agent_last_name
  pure (f, l)

/-- `load_aep_performance_data`: group cleaned rows by parsed name,
aggregate earliest date, score statistics (`.round(4)`) and mean calls
per hour, then attach the normalized join keys. -/
def load_aep_performance_data (rows : List CleanRow) : List Performer :=
  (groupByKey perfKey rows).map (fun kg =>
    let scores := kg.2.filterMap (fun r => r.performance_score)
    { agent_first_name := kg.1.1
      agent_last_name := kg.1.2
      first_performance_date := (kg.2.filterMap (fun r => r.date)).min?
      avg_performance_score :=
        if scores.isEmpty then none else some (roundTo 4 (qmean scores))
      max_performance_score := scores.max?.map (roundTo 4)
      performance_records_count := scores.length
      avg_calls_per_hour := roundTo 4 (qmean (kg.2.map (fun r => r.cph)))
      first_name_clean := cleanName kg.1.1
      last_name_clean := cleanName kg.1.2 })

/-- One applicant row, with the normalized join keys attached. -/
structure Applicant where
  applicant_id : ℕ
  first_name : String
  last_name : String
  email : String
  application_date : ℕ
  client_name : String
  first_name_clean : String
  last_name_clean : String
deriving DecidableEq

/-- Attach the normalized join keys to one applicant row (the
`str.strip().str.upper()` columns of `get_aep_applicants`). -/
def prepareApplicant (a : Applicant) : Applicant :=
  { a with first_name_clean := cleanName a.first_name,
           last_name_clean := cleanName a.last_name }

/-- The applicant data frame with its join keys computed. -/
def prepare_applicants (l : List Applicant) : List Applicant :=
  l.map prepareApplicant

/-- The inner join of performers and applicants on
`(first_name_clean, last_name_clean)` (`pd.merge(…, how='inner')`). -/
def joinPerformersApplicants (P : List Performer) (A : List Applicant) :
    List (Performer × Applicant) :=
  P.flatMap (fun p =>
    (A.filter (fun a => p.first_name_clean = a.first_name_clean ∧
      p.last_name_clean = a.last_name_clean)).map (fun a => (p, a)))

/-- `application_date < first_performance_date` on dates; a null (NaT)
first performance date compares false. -/
def appliedBefore (appDate : ℕ) (firstPerf : Option ℕ) : Bool :=
  match firstPerf with
  | some d => appDate < d
  | none => false

/-- The joined rows that survive the strict date filter. -/
def matchPairs (P : List Performer) (A : List Applicant) :
    List (Performer × Applicant) :=
  (joinPerformersApplicants P A).filter
    (fun pa => appliedBefore pa.2.application_date pa.1.first_performance_date)

/-- The columns `match_performers_to_applicants` keeps per matched row. -/
structure MatchedCandidate where
  agent_first_name : String
  agent_last_name : String
  applicant_id : ℕ
  application_date : ℕ
  first_performance_date : Option ℕ
  avg_performance_score : Option ℚ
  max_performance_score : Option ℚ
  performance_records_count : ℕ
  avg_calls_per_hour : ℚ
  client_name : String
  email : String
deriving DecidableEq

/-- Project one joined pair onto the matched-candidate columns. -/
def toMatchedCandidate (pa : Performer × Applicant) : MatchedCandidate :=
  { agent_first_name := pa.1.agent_first_name
    agent_last_name := pa.1.agent_last_name
    applicant_id := pa.2.applicant_id
    application_date := pa.2.application_date
    first_performance_date := pa.1.first_performance_date
    avg_performance_score := pa.1.avg_performance_score
    max_performance_score := pa.1.max_performance_score
    performance_records_count := pa.1.performance_records_count
    avg_calls_per_hour := pa.1.avg_calls_per_hour
    client_name := pa.2.client_name
    email := pa.2.email }

/-- The analyzer's mutable state: the two loaded source datasets and the
stored matched output, each `none` until produced. -/
structure AnalyzerState where
  aep_performers : Option (List Performer)
  aep_applicants : Option (List Applicant)
  matched_candidates : Option (List MatchedCandidate)
deriving DecidableEq

/-- `match_performers_to_applicants`: raise (`ValueError`) unless both
source datasets are loaded; otherwise join, date-filter, project, and
store the matched output. -/
def match_performers_to_applicants (st : AnalyzerState) :
    Except String AnalyzerState :=
  match st.aep_performers, st.aep_applicants with
  | some P, some A =>
    .ok { st with matched_candidates := some ((matchPairs P A).map toMatchedCandidate) }
  | _, _ => .error "Must load performance data and applicants first"

end AEP

/-! ## Theorems -/

/-- Claim C1 (counterexample): the code's `pd.cut` uses pandas' default
right-closed intervals, so a score of exactly 60.0 is tiered
Needs_Improvement, not Meets_Expectations as the claim states, and 90.0
is tiered Exceeds_Expectations, not Outstanding. -/
theorem c1_counterexample :
    AEP.performance_tier 60 = some .Needs_Improvement ∧
    AEP.performance_tier 60 ≠ some .Meets_Expectations ∧
    AEP.performance_tier 90 = some .Exceeds_Expectations ∧
    AEP.performance_tier 90 ≠ some .Outstanding := by
  refine ⟨?_, ?_, ?_, ?_⟩ <;> decide

/-- Claim C1 (amended): tier bucketing partitions `[0,100]` with edges
0, 60, 75, 90, 100 into right-closed intervals, the lowest edge
included: `[0,60]` → Needs_Improvement, `(60,75]` → Meets_Expectations,
`(75,90]` → Exceeds_Expectations, `(90,100]` → Outstanding.  In
particular every score in `[0,60)` is tiered Needs_Improvement, exactly
60.0 is Needs_Improvement, 75.0 is Meets_Expectations, 90.0 is
Exceeds_Expectations, and scores outside `[0,100]` receive no tier. -/
theorem performance_tier_right_closed (s : ℚ) :
    (0 ≤ s → s ≤ 60 → AEP.performance_tier s = some .Needs_Improvement) ∧
    (60 < s → s ≤ 75 → AEP.performance_tier s = some .Meets_Expectations) ∧
    (75 < s → s ≤ 90 → AEP.performance_tier s = some .Exceeds_Expectations) ∧
    (90 < s → s ≤ 100 → AEP.performance_tier s = some .Outstanding) ∧
    (s < 0 → AEP.performance_tier s = none) ∧
    (100 < s → AEP.performance_tier s = none) := by
  unfold AEP.performance_tier
  refine ⟨fun h1 h2 => ?_, fun h1 h2 => ?_, fun h1 h2 => ?_, fun h1 h2 => ?_,
    fun h1 => ?_, fun h1 => ?_⟩
  · rw [if_pos ⟨h1, h2⟩]
  · rw [if_neg (by rintro ⟨_, hc⟩; linarith), if_pos ⟨h1, h2⟩]
  · rw [if_neg (by rintro ⟨_, hc⟩; linarith), if_neg (by rintro ⟨_, hc⟩; linarith),
      if_pos ⟨h1, h2⟩]
  · rw [if_neg (by rintro ⟨_, hc⟩; linarith), if_neg (by rintro ⟨_, hc⟩; linarith),
      if_neg (by rintro ⟨_, hc⟩; linarith), if_pos ⟨h1, h2⟩]
  · rw [if_neg (by rintro ⟨hc, _⟩; linarith), if_neg (by rintro ⟨hc, _⟩; linarith),
      if_neg (by rintro ⟨hc, _⟩; linarith), if_neg (by rintro ⟨hc, _⟩; linarith)]
  · rw [if_neg (by rintro ⟨_, hc⟩; linarith), if_neg (by rintro ⟨_, hc⟩; linarith),
      if_neg (by rintro ⟨_, hc⟩; linarith), if_neg (by rintro ⟨_, hc⟩; linarith)]

/-- Witness for the amended Claim C1 theorem at concrete scores. -/
theorem performance_tier_right_closed_witness :
    AEP.performance_tier 45 = some .Needs_Improvement ∧
    AEP.performance_tier 75 = some .Meets_Expectations ∧
    AEP.performance_tier 100 = some .Outstanding ∧
    AEP.performance_tier 101 = none :=
  ⟨(performance_tier_right_closed 45).1 (by norm_num) (by norm_num),
   (performance_tier_right_closed 75).2.1 (by norm_num) (by norm_num),
   (performance_tier_right_closed 100).2.2.2.1 (by norm_num) (by norm_num),
   (performance_tier_right_closed 101).2.2.2.2.2 (by norm_num)⟩

theorem not_mem_groupByKey_of_key_none {α K : Type} [DecidableEq K]
    (key : α → Option K) (l : List α) (r : α) (h : key r = none) :
    ∀ kg ∈ AEP.groupByKey key l, r ∉ kg.2 := by
  intro kg hkg hmem
  unfold AEP.groupByKey at hkg
  obtain ⟨k, -, rfl⟩ := List.mem_map.mp hkg
  have := (List.mem_filter.mp hmem).2
  simp only [decide_eq_true_eq] at this
  rw [h] at this
  exact Option.noConfusion this

/-- Claim C3: the name parser is total (it cannot raise) and follows the
claim's rules in order: null input gives `(null, null, null)`; a trimmed
string that does not split on commas into exactly two segments gives
`(null, null, null)`; otherwise the second segment is split on
whitespace, with zero tokens giving `(last, null, null)`, one token
giving `(last, token, null)`, and two or more tokens giving
`(last, first token, first character of the last token)`; the claim's
four concrete examples evaluate as stated. -/
theorem parse_name_rules :
    (∀ s : String,
      AEP.parse_name (some s) =
        match AEP.splitPred (fun c => c = ',') (AEP.trimChars s.data) with
        | [seg0, seg1] =>
          match (AEP.splitPred Char.isWhitespace (AEP.trimChars seg1)).filter
              (fun w => w ≠ []) with
          | [] => (some ⟨AEP.trimChars seg0⟩, none, none)
          | [tok] => (some ⟨AEP.trimChars seg0⟩, some ⟨tok⟩, none)
          | tok :: tok2 :: more =>
            (some ⟨AEP.trimChars seg0⟩, some ⟨tok⟩,
              ((tok :: tok2 :: more).getLastD []).head?.map
                (fun c => (⟨[c]⟩ : String)))
        | _ => (none, none, none)) ∧
    AEP.parse_name none = (none, none, none) ∧
    AEP.parse_name (some "SMITH,JOHN A") = (some "SMITH", some "JOHN", some "A") ∧
    AEP.parse_name (some "SMITH,JOHN") = (some "SMITH", some "JOHN", none) ∧
    AEP.parse_name (some "SMITH") = (none, none, none) := by
  refine ⟨fun s => ?_, by decide, by decide, by decide, by decide⟩
  simp only [AEP.parse_name]
  generalize AEP.splitPred (fun c => c = ',') (AEP.trimChars s.data) = parts
  rcases parts with - | ⟨a, - | ⟨b, - | ⟨c, t⟩⟩⟩
  · rfl
  · rfl
  · simp only [List.length_cons, List.length_nil, Nat.reduceAdd, reduceIte,
      List.getD, List.get?, Option.getD_some]
    generalize (AEP.splitPred Char.isWhitespace (AEP.trimChars b)).filter
      (fun w => w ≠ []) = toks
    rcases toks with - | ⟨f, - | ⟨g, rest⟩⟩
    · rfl
    · rfl
    · simp only [List.getLast_eq_getLastD, List.getLastD_cons]
      cases hx : rest.getLastD g with
      | nil => rfl
      | cons ch chs => rfl
  · rfl

/-- Values of a column after `Option.map`-ping a function over its
cells: the non-null values are the function's images of the original
non-null values. -/
theorem filterMap_id_map_optionMap (f : ℚ → ℚ) (col : List (Option ℚ)) :
    (col.map (Option.map f)).filterMap id = (col.filterMap id).map f := by
  induction col with
  | nil => rfl
  | cons h t ih => cases h <;> simp [ih]

theorem le_of_mem_max?Q {l : List ℚ} {m : ℚ} (h : l.max? = some m) :
    ∀ a ∈ l, a ≤ m := by
  have inst : Std.Antisymm (α := ℚ) (· ≤ ·) := ⟨fun h1 h2 => le_antisymm h1 h2⟩
  rw [List.max?_eq_some_iff (fun a => le_refl a) (fun a b => max_choice a b)
    (fun a b c => max_le_iff)] at h
  exact h.2

/-- Claim C7 (counterexample): standardization decides per column, not
per value: in the column `[0.5, 50]` the maximum 50 exceeds 1, so the
whole column is divided by 100 and the value 0.5 — already at most 1 —
becomes 0.005 instead of staying 0.5 as the claim states. -/
theorem c7_counterexample :
    AEP.standardize_pct_column [some (1/2), some 50] = [some (1/200), some (1/2)] ∧
    (1/2 : ℚ) ≤ 1 ∧ (1/200 : ℚ) ≠ 1/2 := by
  refine ⟨?_, by norm_num, by norm_num⟩
  show AEP.standardize_pct_column [some (1/2), some 50] = [some (1/200), some (1/2)]
  simp only [AEP.standardize_pct_column, List.filterMap, Option.bind]
  norm_num

/-- Claim C7 (amended): for each percentage-like ratio column,
standardization is column-level, not per-value: when the column's
(null-skipping) maximum exceeds 1 every value of the column — including
values already at most 1 — is divided by 100, and otherwise the column
is left unchanged; consequently, when every non-null input value lies in
`[0,100]`, every non-null value after normalization lies in `[0,1]`
(values above 100 would remain above 1 after division). -/
theorem standardize_pct_column_spec :
    ∀ col : List (Option ℚ),
      (∀ m, (col.filterMap id).max? = some m →
        (1 < m → AEP.standardize_pct_column col =
          col.map (Option.map (fun v => v / 100))) ∧
        (m ≤ 1 → AEP.standardize_pct_column col = col)) ∧
      ((col.filterMap id).max? = none → AEP.standardize_pct_column col = col) ∧
      ((∀ v ∈ col.filterMap id, 0 ≤ v ∧ v ≤ 100) →
        ∀ w ∈ (AEP.standardize_pct_column col).filterMap id, 0 ≤ w ∧ w ≤ 1) := by
  intro col
  refine ⟨fun m hm => ⟨fun h1 => ?_, fun h1 => ?_⟩, fun hm => ?_, fun hv => ?_⟩
  · unfold AEP.standardize_pct_column
    rw [hm]
    show (if 1 < m then col.map (Option.map fun v => v / 100) else col) = _
    rw [if_pos h1]
  · unfold AEP.standardize_pct_column
    rw [hm]
    show (if 1 < m then col.map (Option.map fun v => v / 100) else col) = _
    rw [if_neg (not_lt.mpr h1)]
  · unfold AEP.standardize_pct_column
    rw [hm]
  · cases hm : (col.filterMap id).max? with
    | none =>
      have hnil : col.filterMap id = [] := List.max?_eq_none_iff.mp hm
      unfold AEP.standardize_pct_column
      rw [hm, hnil]
      intro w hw
      exact absurd hw (List.not_mem_nil w)
    | some m =>
      unfold AEP.standardize_pct_column
      rw [hm]
      show ∀ w ∈ (if 1 < m then col.map (Option.map fun v => v / 100) else col).filterMap id, _
      by_cases h1 : 1 < m
      · rw [if_pos h1]
        intro w hw
        rw [filterMap_id_map_optionMap] at hw
        obtain ⟨v, hv', rfl⟩ := List.mem_map.mp hw
        obtain ⟨hv0, hv100⟩ := hv v hv'
        constructor
        · positivity
        · rw [div_le_one (by norm_num)]
          linarith
      · rw [if_neg h1]
        intro w hw
        refine ⟨(hv w hw).1, ?_⟩
        exact le_trans (le_of_mem_max?Q hm w hw) (not_lt.mp h1)

/-- Witness for the amended Claim C7 theorem: a column with maximum 50
is divided through (0.5 becomes 0.005), a column with maximum 0.5 is
unchanged, and a column of values in `[0,100]` normalizes into
`[0,1]`. -/
theorem standardize_pct_column_spec_witness :
    AEP.standardize_pct_column [some (1/2), some 50] =
      [some ((1/2) / 100), some (50 / 100)] ∧
    AEP.standardize_pct_column [some (1/2), none] = [some (1/2), none] ∧
    (0 ≤ (1/200 : ℚ) ∧ (1/200 : ℚ) ≤ 1) := by
  have hmax : (List.filterMap id [some (1/2 : ℚ), some 50]).max? = some 50 := by
    show ([(1/2 : ℚ), 50]).max? = some 50
    rw [List.max?_cons', List.foldl_cons, List.foldl_nil, max_eq_right (by norm_num)]
  have hmax2 : (List.filterMap id [some (1/2 : ℚ), none]).max? = some (1/2) := by
    show ([(1/2 : ℚ)]).max? = some (1/2)
    rw [List.max?_cons', List.foldl_nil]
  refine ⟨?_, ?_, ?_⟩
  · have h := ((standardize_pct_column_spec [some (1/2), some 50]).1 50 hmax).1
      (by norm_num)
    rw [h]
    rfl
  · exact ((standardize_pct_column_spec [some (1/2), none]).1 (1/2) hmax2).2
      (by norm_num)
  · have h := (standardize_pct_column_spec [some (1/2), some 50]).2.2
      (by intro v hv
          simp only [List.filterMap_cons, id_eq, List.filterMap_nil,
            List.mem_cons, List.not_mem_nil, or_false] at hv
          rcases hv with rfl | rfl <;> norm_num)
      (1/200)
      (by rw [((standardize_pct_column_spec [some (1/2), some 50]).1 50 hmax).1
            (by norm_num)]
          norm_num)
    exact h

/-- Claim C6: the record linker raises exactly when at least one source
dataset has not been loaded (it raises the fixed `ValueError` message),
and on success the loaded datasets are unchanged and the stored matched
output is the join of the two loaded datasets; in the error case no new
state is produced at all, so the stored matched-candidate state is
unchanged. -/
theorem match_performers_precondition :
    ∀ st : AEP.AnalyzerState,
      ((∃ e, AEP.match_performers_to_applicants st = .error e) ↔
        (st.aep_performers = none ∨ st.aep_applicants = none)) ∧
      (st.aep_performers = none ∨ st.aep_applicants = none →
        AEP.match_performers_to_applicants st =
          .error "Must load performance data and applicants first") ∧
      (∀ st', AEP.match_performers_to_applicants st = .ok st' →
        st'.aep_performers = st.aep_performers ∧
        st'.aep_applicants = st.aep_applicants ∧
        ∃ P A, st.aep_performers = some P ∧ st.aep_applicants = some A ∧
          st'.matched_candidates =
            some ((AEP.matchPairs P A).map AEP.toMatchedCandidate)) := by
  intro st
  obtain ⟨p, a, m⟩ := st
  cases p with
  | none =>
    cases a <;>
      exact ⟨⟨fun _ => Or.inl rfl, fun _ => ⟨_, rfl⟩⟩, fun _ => rfl,
        fun st' h => Except.noConfusion h⟩
  | some P =>
    cases a with
    | none =>
      exact ⟨⟨fun _ => Or.inr rfl, fun _ => ⟨_, rfl⟩⟩, fun _ => rfl,
        fun st' h => Except.noConfusion h⟩
    | some A =>
      refine ⟨⟨fun he => ?_, fun hor => ?_⟩, fun hor => ?_, fun st' h => ?_⟩
      · obtain ⟨e, he⟩ := he
        exact Except.noConfusion he
      · rcases hor with h | h <;> exact Option.noConfusion h
      · rcases hor with h | h <;> exact Option.noConfusion h
      · refine ⟨?_, ?_, P, A, rfl, rfl, ?_⟩ <;> rw [← Except.ok.inj h]

/-- Witness for the Claim C6 theorem: with no dataset loaded the linker
raises the fixed error, and with two empty datasets loaded it succeeds
and stores the empty matched output. -/
theorem match_performers_precondition_witness :
    AEP.match_performers_to_applicants ⟨none, none, none⟩ =
      .error "Must load performance data and applicants first" ∧
    (AEP.AnalyzerState.mk (some []) (some []) (some [])).aep_performers = some [] := by
  refine ⟨(match_performers_precondition ⟨none, none, none⟩).2.1 (Or.inl rfl), ?_⟩
  exact ((match_performers_precondition ⟨some [], some [], none⟩).2.2
    ⟨some [], some [], some []⟩ rfl).1

/-- Claim C10: a performance event whose agent-name field failed to
parse (null first or last name component) is retained by
`parse_agent_names` (no row is dropped), but is excluded from every
downstream name-keyed grouping: it lies in no group of the candidate
loader's groupby on `(agent_first_name, agent_last_name)`, and any
semantic row inheriting those null name components lies in no group of
the aggregator's groupby on `(agent_name, agent_first_name,
agent_last_name)` — grouping keys containing nulls are dropped. -/
theorem parse_failure_excluded_from_groupings :
    ∀ (rows : List AEP.CleanRow) (r : AEP.CleanRow), r ∈ rows →
      ((AEP.parse_name r.manager_hierarchy_name).2.1 = none ∨
       (AEP.parse_name r.manager_hierarchy_name).1 = none) →
      (AEP.parse_agent_names rows).length = rows.length ∧
      AEP.enrichWithName r ∈ AEP.parse_agent_names rows ∧
      (∀ kg ∈ AEP.groupByKey AEP.perfKey (AEP.parse_agent_names rows),
        AEP.enrichWithName r ∉ kg.2) ∧
      (∀ (srows : List AEP.SemRow) (s : AEP.SemRow),
        s.agent_first_name = (AEP.parse_name r.manager_hierarchy_name).2.1 →
        s.agent_last_name = (AEP.parse_name r.manager_hierarchy_name).1 →
        ∀ kg ∈ AEP.groupByKey AEP.summaryKey srows, s ∉ kg.2) := by
  intro rows r hr hfail
  have hkey : AEP.perfKey (AEP.enrichWithName r) = none := by
    rcases hfail with h | h
    · simp [AEP.perfKey, AEP.enrichWithName, h]
    · cases hf : (AEP.parse_name r.manager_hierarchy_name).2.1 <;>
        simp [AEP.perfKey, AEP.enrichWithName, h, hf]
  refine ⟨by simp [AEP.parse_agent_names], ?_, ?_, ?_⟩
  · exact List.mem_map_of_mem AEP.enrichWithName hr
  · exact not_mem_groupByKey_of_key_none AEP.perfKey _ _ hkey
  · intro srows s hf hl
    have hskey : AEP.summaryKey s = none := by
      rcases hfail with h | h
      · rw [h] at hf
        cases hn : s.agent_name <;> simp [AEP.summaryKey, hn, hf]
      · rw [h] at hl
        cases hn : s.agent_name <;> cases hfn : s.agent_first_name <;>
          simp [AEP.summaryKey, hn, hfn, hl]
    exact not_mem_groupByKey_of_key_none AEP.summaryKey srows s hskey

/-- Witness for the Claim C10 theorem at a one-row table whose name
field `"SMITH"` has no comma and therefore fails to parse. -/
theorem parse_failure_excluded_from_groupings_witness :
    (AEP.parse_agent_names
      [AEP.CleanRow.mk (some "SMITH") none none none none none 0]).length = 1 ∧
    AEP.enrichWithName (AEP.CleanRow.mk (some "SMITH") none none none none none 0) ∈
      AEP.parse_agent_names
        [AEP.CleanRow.mk (some "SMITH") none none none none none 0] := by
  have h := parse_failure_excluded_from_groupings
    [AEP.CleanRow.mk (some "SMITH") none none none none none 0]
    (AEP.CleanRow.mk (some "SMITH") none none none none none 0)
    (by simp) (Or.inl (by decide))
  exact ⟨h.1, h.2.1⟩

theorem toNat_ofNat_lt (n : ℕ) (h : n < 55296) : (Char.ofNat n).toNat = n := by
  rw [Char.ofNat, dif_pos (Or.inl h)]
  rfl

theorem toLower_eq_or_range (c : Char) :
    Char.toLower c = c ∨
      (97 ≤ (Char.toLower c).toNat ∧ (Char.toLower c).toNat ≤ 122) := by
  by_cases h : 65 ≤ c.toNat ∧ c.toNat ≤ 90
  · right
    rw [Char.toLower, if_pos ⟨h.1, h.2⟩, toNat_ofNat_lt _ (by omega)]
    omega
  · left
    rw [Char.toLower, if_neg (fun hc => h ⟨hc.1, hc.2⟩)]

theorem toLower_idem (c : Char) : Char.toLower (Char.toLower c) = Char.toLower c := by
  rcases toLower_eq_or_range c with he | hr
  · rw [he]
    exact he
  · rw [Char.toLower, if_neg (fun hc => by omega)]

theorem not_whitespace_of_range (c : Char) (h1 : 97 ≤ c.toNat) (h2 : c.toNat ≤ 122) :
    c.isWhitespace = false := by
  simp only [Char.isWhitespace, Bool.or_eq_false_iff, decide_eq_false_iff_not]
  refine ⟨⟨⟨?_, ?_⟩, ?_⟩, ?_⟩ <;> rintro rfl <;> exact absurd h1 (by decide)

theorem eq_space_of_toLower_eq_space (c : Char) (h : Char.toLower c = ' ') :
    c = ' ' := by
  rcases toLower_eq_or_range c with he | hr
  · rwa [he] at h
  · rw [h] at hr
    exact absurd hr.1 (by decide)

theorem isWhitespace_toLower_eq_false (c : Char) (h : c.isWhitespace = false) :
    (Char.toLower c).isWhitespace = false := by
  rcases toLower_eq_or_range c with he | hr
  · rwa [he]
  · exact not_whitespace_of_range _ hr.1 hr.2

theorem space_not_mem_replaceSpaceChars (l : List Char) :
    ' ' ∉ AEP.replaceSpaceChars l := by
  intro hm
  obtain ⟨c, -, he⟩ := List.mem_map.mp hm
  by_cases hc : c = ' '
  · rw [if_pos hc] at he
    exact absurd he (by decide)
  · rw [if_neg hc] at he
    exact hc he

theorem space_not_mem_lowerChars {l : List Char} (h : ' ' ∉ l) :
    ' ' ∉ AEP.lowerChars l := by
  intro hm
  obtain ⟨c, hc, he⟩ := List.mem_map.mp hm
  exact h (eq_space_of_toLower_eq_space c he ▸ hc)

theorem replaceDashChars_of_no_space :
    ∀ (l : List Char), ' ' ∉ l → AEP.replaceDashChars l = l
  | [], _ => rfl
  | [_], _ => rfl
  | [_, _], _ => rfl
  | c :: d :: e :: rest, h => by
    have hc : ¬(c = ' ' ∧ d = '-' ∧ e = ' ') := by
      rintro ⟨rfl, -, -⟩
      exact h (List.mem_cons_self _ _)
    rw [AEP.replaceDashChars, if_neg hc,
      replaceDashChars_of_no_space (d :: e :: rest)
        (fun hm => h (List.mem_cons_of_mem c hm))]

theorem replaceSpaceChars_of_no_space {l : List Char} (h : ' ' ∉ l) :
    AEP.replaceSpaceChars l = l := by
  unfold AEP.replaceSpaceChars
  have h1 : List.map (fun c => if c = ' ' then '_' else c) l = List.map id l := by
    apply List.map_congr_left
    intro c hc
    have hcc : c ≠ ' ' := fun hcc => h (hcc ▸ hc)
    rw [if_neg hcc]
    rfl
  rw [h1, List.map_id]

theorem lowerChars_idem (l : List Char) :
    AEP.lowerChars (AEP.lowerChars l) = AEP.lowerChars l := by
  unfold AEP.lowerChars
  rw [List.map_map]
  exact List.map_congr_left (fun c _ => toLower_idem c)

theorem head?_replaceDashChars (l : List Char) :
    (AEP.replaceDashChars l).head? = l.head? ∨
    (AEP.replaceDashChars l).head? = some '_' := by
  match l with
  | [] => exact Or.inl rfl
  | [c] => exact Or.inl rfl
  | [c, d] => exact Or.inl rfl
  | c :: d :: e :: rest =>
    rw [AEP.replaceDashChars]
    by_cases hc : c = ' ' ∧ d = '-' ∧ e = ' '
    · rw [if_pos hc]
      exact Or.inr rfl
    · rw [if_neg hc]
      exact Or.inl rfl

theorem replaceDashChars_ne_nil : ∀ {l : List Char}, l ≠ [] →
    AEP.replaceDashChars l ≠ []
  | [], h => absurd rfl h
  | [_], _ => by simp [AEP.replaceDashChars]
  | [_, _], _ => by simp [AEP.replaceDashChars]
  | c :: d :: e :: rest, _ => by
    rw [AEP.replaceDashChars]
    by_cases hc : c = ' ' ∧ d = '-' ∧ e = ' '
    · rw [if_pos hc]
      exact List.cons_ne_nil _ _
    · rw [if_neg hc]
      exact List.cons_ne_nil _ _

theorem getLast?_cons_of_ne_nil {α : Type} {a : α} {l : List α} (h : l ≠ []) :
    (a :: l).getLast? = l.getLast? := by
  cases l with
  | nil => exact absurd rfl h
  | cons x xs => exact List.getLast?_cons_cons

theorem getLast?_replaceDashChars : ∀ (l : List Char),
    (AEP.replaceDashChars l).getLast? = l.getLast? ∨
    (AEP.replaceDashChars l).getLast? = some '_'
  | [] => Or.inl rfl
  | [_] => Or.inl rfl
  | [_, _] => Or.inl rfl
  | c :: d :: e :: rest => by
    rw [AEP.replaceDashChars]
    by_cases hcond : c = ' ' ∧ d = '-' ∧ e = ' '
    · rw [if_pos hcond]
      have ih := getLast?_replaceDashChars rest
      cases rest with
      | nil => exact Or.inr rfl
      | cons x xs =>
        have hne : AEP.replaceDashChars (x :: xs) ≠ [] :=
          replaceDashChars_ne_nil (List.cons_ne_nil x xs)
        rw [getLast?_cons_of_ne_nil hne, List.getLast?_cons_cons,
          List.getLast?_cons_cons, getLast?_cons_of_ne_nil (List.cons_ne_nil x xs)]
        exact ih
    · rw [if_neg hcond]
      have ih := getLast?_replaceDashChars (d :: e :: rest)
      have hne : AEP.replaceDashChars (d :: e :: rest) ≠ [] :=
        replaceDashChars_ne_nil (List.cons_ne_nil _ _)
      rw [getLast?_cons_of_ne_nil hne, List.getLast?_cons_cons]
      exact ih

theorem head?_trimChars_not_ws (l : List Char) :
    ∀ c, (AEP.trimChars l).head? = some c → c.isWhitespace = false := by
  intro c hc
  unfold AEP.trimChars at hc
  have hsuf : (l.dropWhile Char.isWhitespace).reverse.dropWhile Char.isWhitespace
      <:+ (l.dropWhile Char.isWhitespace).reverse := List.dropWhile_suffix _
  have hpre := List.reverse_prefix.mpr hsuf
  rw [List.reverse_reverse] at hpre
  obtain ⟨t, ht⟩ := hpre
  have hd_head : (l.dropWhile Char.isWhitespace).head? = some c := by
    rw [← ht]
    cases hXr : ((l.dropWhile Char.isWhitespace).reverse.dropWhile
        Char.isWhitespace).reverse with
    | nil =>
      rw [hXr] at hc
      cases hc
    | cons y ys =>
      rw [hXr] at hc
      rw [List.cons_append, List.head?_cons]
      rw [List.head?_cons] at hc
      exact hc
  have h2 := List.head?_dropWhile_not Char.isWhitespace l
  rw [hd_head] at h2
  exact h2

theorem getLast?_trimChars_not_ws (l : List Char) :
    ∀ c, (AEP.trimChars l).getLast? = some c → c.isWhitespace = false := by
  intro c hc
  unfold AEP.trimChars at hc
  rw [List.getLast?_reverse] at hc
  have h2 := List.head?_dropWhile_not Char.isWhitespace
    (l.dropWhile Char.isWhitespace).reverse
  rw [hc] at h2
  exact h2

theorem dropWhile_eq_self_of_head? {α : Type} (p : α → Bool) (l : List α)
    (h : ∀ c, l.head? = some c → p c = false) : l.dropWhile p = l := by
  cases l with
  | nil => rfl
  | cons x xs =>
    rw [List.dropWhile_cons, if_neg]
    rw [h x rfl]
    exact Bool.false_ne_true

theorem trimChars_eq_self {l : List Char}
    (hh : ∀ c, l.head? = some c → c.isWhitespace = false)
    (hl : ∀ c, l.getLast? = some c → c.isWhitespace = false) :
    AEP.trimChars l = l := by
  unfold AEP.trimChars
  rw [dropWhile_eq_self_of_head? Char.isWhitespace l hh,
    dropWhile_eq_self_of_head? Char.isWhitespace l.reverse
      (fun c hc => hl c (by rwa [List.head?_reverse] at hc)),
    List.reverse_reverse]

theorem if_space_toLower_not_ws (c : Char) (h : c.isWhitespace = false) :
    (Char.toLower (if c = ' ' then '_' else c)).isWhitespace = false := by
  by_cases hc : c = ' '
  · rw [hc] at h
    exact absurd h (by decide)
  · rw [if_neg hc]
    exact isWhitespace_toLower_eq_false c h

theorem head?_cleanColumnChars_not_ws (l : List Char) :
    ∀ c, (AEP.cleanColumnChars l).head? = some c → c.isWhitespace = false := by
  intro c hc
  have hy : (AEP.cleanColumnChars l).head? =
      ((AEP.replaceDashChars (AEP.trimChars l)).head?).map
        (fun d => Char.toLower (if d = ' ' then '_' else d)) := by
    unfold AEP.cleanColumnChars AEP.lowerChars AEP.replaceSpaceChars
    rw [List.head?_map, List.head?_map, Option.map_map]
    rfl
  rw [hy] at hc
  rcases head?_replaceDashChars (AEP.trimChars l) with hh | hh <;> rw [hh] at hc
  · cases hth : (AEP.trimChars l).head? with
    | none =>
      rw [hth] at hc
      cases hc
    | some c0 =>
      rw [hth] at hc
      have hc0 := head?_trimChars_not_ws l c0 hth
      obtain rfl : Char.toLower (if c0 = ' ' then '_' else c0) = c := by
        simpa using hc
      exact if_space_toLower_not_ws c0 hc0
  · obtain rfl : Char.toLower (if '_' = ' ' then '_' else '_') = c := by
      simpa using hc
    decide

theorem getLast?_cleanColumnChars_not_ws (l : List Char) :
    ∀ c, (AEP.cleanColumnChars l).getLast? = some c → c.isWhitespace = false := by
  intro c hc
  have hy : (AEP.cleanColumnChars l).getLast? =
      ((AEP.replaceDashChars (AEP.trimChars l)).getLast?).map
        (fun d => Char.toLower (if d = ' ' then '_' else d)) := by
    unfold AEP.cleanColumnChars AEP.lowerChars AEP.replaceSpaceChars
    rw [List.getLast?_map, List.getLast?_map, Option.map_map]
    rfl
  rw [hy] at hc
  rcases getLast?_replaceDashChars (AEP.trimChars l) with hh | hh <;> rw [hh] at hc
  · cases hth : (AEP.trimChars l).getLast? with
    | none =>
      rw [hth] at hc
      cases hc
    | some c0 =>
      rw [hth] at hc
      have hc0 := getLast?_trimChars_not_ws l c0 hth
      obtain rfl : Char.toLower (if c0 = ' ' then '_' else c0) = c := by
        simpa using hc
      exact if_space_toLower_not_ws c0 hc0
  · obtain rfl : Char.toLower (if '_' = ' ' then '_' else '_') = c := by
      simpa using hc
    decide

theorem space_not_mem_cleanColumnChars (l : List Char) :
    ' ' ∉ AEP.cleanColumnChars l :=
  space_not_mem_lowerChars (space_not_mem_replaceSpaceChars _)

theorem cleanColumnChars_idem (l : List Char) :
    AEP.cleanColumnChars (AEP.cleanColumnChars l) = AEP.cleanColumnChars l := by
  have hys := space_not_mem_cleanColumnChars l
  have step : AEP.cleanColumnChars (AEP.cleanColumnChars l) =
      AEP.lowerChars (AEP.replaceSpaceChars (AEP.replaceDashChars
        (AEP.trimChars (AEP.cleanColumnChars l)))) := rfl
  rw [step,
    trimChars_eq_self (head?_cleanColumnChars_not_ws l)
      (getLast?_cleanColumnChars_not_ws l),
    replaceDashChars_of_no_space _ hys, replaceSpaceChars_of_no_space hys]
  exact lowerChars_idem _

/-- Claim C9: column-label normalization (strip, replace `" - "` and
`" "` with underscores, lowercase) is idempotent: applying it twice to
any label equals applying it once, and consequently a label that is
already the normalizer's own output is returned unchanged. -/
theorem clean_column_name_idem (s : String) :
    AEP.clean_column_name (AEP.clean_column_name s) = AEP.clean_column_name s ∧
    (∀ t : String, s = AEP.clean_column_name t → AEP.clean_column_name s = s) := by
  have main : ∀ u : String,
      AEP.clean_column_name (AEP.clean_column_name u) = AEP.clean_column_name u := by
    intro u
    unfold AEP.clean_column_name
    exact congrArg (fun l => (⟨l⟩ : String)) (cleanColumnChars_idem u.data)
  exact ⟨main s, fun t ht => by rw [ht]; exact main t⟩

/-- Witness for the Claim C9 theorem: the already-normalized label
`"a_b"` (the normalizer's output on `"A B"`) is returned unchanged. -/
theorem clean_column_name_idem_witness :
    AEP.clean_column_name "a_b" = "a_b" :=
  (clean_column_name_idem "a_b").2 "A B" (by decide)

/-- Claim C4: for every agent summary set, the ranked output contains
exactly the top-K agents with `days_worked ≥ 10` — every ranked agent is
qualified, an agent below the activity floor never appears, every
omitted qualified agent scores no higher than every kept one, and when
fewer than K agents qualify all qualified agents are returned — ordered
descending by composite score with ties broken by input order (the kept
agents of any one composite score are an initial segment, in input
order, of the qualified agents with that score), and paired with ranks
1..K in that order. -/
theorem identify_top_performers_spec :
    ∀ (n : ℕ) (summary : List AEP.AgentSummary),
      (∀ p ∈ AEP.identify_top_performers n summary, 10 ≤ p.2.days_worked) ∧
      ((AEP.identify_top_performers n summary).map Prod.fst =
        List.range' 1 (AEP.identify_top_performers n summary).length) ∧
      ((AEP.identify_top_performers n summary).length =
        min n (summary.filter (fun a => 10 ≤ a.days_worked)).length) ∧
      ((AEP.identify_top_performers n summary).map Prod.snd).Pairwise
        (fun a b => b.composite_performance_score ≤ a.composite_performance_score) ∧
      (∀ s ∈ summary, s.days_worked < 10 →
        ∀ p ∈ AEP.identify_top_performers n summary, p.2 ≠ s) ∧
      ((summary.filter (fun a => 10 ≤ a.days_worked)).length ≤ n →
        ((AEP.identify_top_performers n summary).map Prod.snd).Perm
          (summary.filter (fun a => 10 ≤ a.days_worked))) ∧
      (∀ s ∈ summary.filter (fun a => 10 ≤ a.days_worked),
        s ∉ (AEP.identify_top_performers n summary).map Prod.snd →
        ∀ t ∈ (AEP.identify_top_performers n summary).map Prod.snd,
          s.composite_performance_score ≤ t.composite_performance_score) ∧
      (∀ q : ℚ, ((AEP.identify_top_performers n summary).map Prod.snd).filter
          (fun s => s.composite_performance_score = q) <+:
        (summary.filter (fun a => 10 ≤ a.days_worked)).filter
          (fun s => s.composite_performance_score = q)) := by
  intro n summary
  have trans : ∀ (a b c : AEP.AgentSummary), AEP.compositeGE a b →
      AEP.compositeGE b c → AEP.compositeGE a c := by
    intro a b c hab hbc
    simp only [AEP.compositeGE, decide_eq_true_eq] at hab hbc ⊢
    exact le_trans hbc hab
  have total : ∀ (a b : AEP.AgentSummary),
      AEP.compositeGE a b || AEP.compositeGE b a := by
    intro a b
    simp only [AEP.compositeGE, Bool.or_eq_true, decide_eq_true_eq]
    exact le_total _ _
  set qual := summary.filter (fun a => 10 ≤ a.days_worked) with hqual
  set sorted := qual.mergeSort AEP.compositeGE with hsorted
  set top := sorted.take n with htop
  have hsl : sorted.length = qual.length := (List.mergeSort_perm qual _).length_eq
  have hout : AEP.identify_top_performers n summary =
      (List.range' 1 top.length).zip top := rfl
  have hsnd : (AEP.identify_top_performers n summary).map Prod.snd = top := by
    rw [hout]
    exact List.map_snd_zip _ _ (by simp [List.length_range'])
  have hfst : (AEP.identify_top_performers n summary).map Prod.fst =
      List.range' 1 top.length := by
    rw [hout]
    exact List.map_fst_zip _ _ (by simp [List.length_range'])
  have hlen_out : (AEP.identify_top_performers n summary).length = top.length := by
    rw [hout, List.length_zip, List.length_range']
    exact min_self _
  have hmem_top : ∀ x ∈ top, x ∈ qual := fun x hx =>
    List.mem_mergeSort.mp (List.mem_of_mem_take hx)
  have hql : ∀ x ∈ qual, 10 ≤ x.days_worked := by
    intro x hx
    have := (List.mem_filter.mp hx).2
    simpa using this
  have hsorted_pw : sorted.Pairwise (fun a b => AEP.compositeGE a b = true) :=
    List.sorted_mergeSort trans total qual
  have conj1 : ∀ p ∈ AEP.identify_top_performers n summary, 10 ≤ p.2.days_worked := by
    intro p hp
    obtain ⟨i, s⟩ := p
    rw [hout] at hp
    exact hql s (hmem_top s (List.of_mem_zip hp).2)
  refine ⟨conj1, ?_, ?_, ?_, ?_, ?_, ?_, ?_⟩
  · rw [hfst, hlen_out]
  · rw [hlen_out, htop, List.length_take, hsl]
  · rw [hsnd]
    exact (hsorted_pw.sublist (List.take_sublist _ _)).imp
      (fun h => by simpa [AEP.compositeGE, decide_eq_true_eq] using h)
  · intro s hs hdays p hp heq
    have := conj1 p hp
    rw [heq] at this
    omega
  · intro hle
    rw [hsnd, htop, List.take_of_length_le (by rw [hsl]; exact hle)]
    exact List.mergeSort_perm qual _
  · intro s hs hnotin t ht
    rw [hsnd] at hnotin ht
    have hs_sorted : s ∈ sorted := List.mem_mergeSort.mpr hs
    have hsplit : s ∈ top ∨ s ∈ sorted.drop n := by
      have h1 := hs_sorted
      rw [← List.take_append_drop n sorted] at h1
      exact List.mem_append.mp h1
    rcases hsplit with h | h
    · exact absurd h hnotin
    · have hg2 := hsorted_pw
      rw [← List.take_append_drop n sorted] at hg2
      have := (List.pairwise_append.mp hg2).2.2 t ht s h
      simpa [AEP.compositeGE, decide_eq_true_eq] using this
  · intro q
    have hqfilter : sorted.filter (fun s => s.composite_performance_score = q) =
        qual.filter (fun s => s.composite_performance_score = q) := by
      have hsub : List.Sublist
          (qual.filter (fun s => s.composite_performance_score = q)) sorted := by
        apply List.sublist_mergeSort trans total
        · apply List.pairwise_of_forall_mem_list
          intro a ha b hb
          have ha' := (List.mem_filter.mp ha).2
          have hb' := (List.mem_filter.mp hb).2
          simp only [decide_eq_true_eq] at ha' hb'
          simp only [AEP.compositeGE, ha', hb', decide_eq_true_eq, le_refl]
        · exact List.filter_sublist qual
      have hperm := (List.mergeSort_perm qual AEP.compositeGE).filter
        (fun s => decide (s.composite_performance_score = q))
      have hsub2 : List.Sublist
          (qual.filter (fun s => s.composite_performance_score = q))
          (sorted.filter (fun s => s.composite_performance_score = q)) := by
        have h2 := hsub.filter (fun s => decide (s.composite_performance_score = q))
        rwa [List.filter_eq_self.mpr
          (fun a ha => (List.mem_filter.mp ha).2)] at h2
      exact (hsub2.eq_of_length hperm.length_eq.symm).symm
    rw [hsnd]
    have hpre := List.IsPrefix.filter
      (fun s => decide (s.composite_performance_score = q)) (List.take_prefix n sorted)
    rw [hqfilter] at hpre
    exact hpre

theorem count_joinPerformersApplicants (P : List AEP.Performer)
    (A : List AEP.Applicant) (p : AEP.Performer) (a : AEP.Applicant)
    (hP : P.count p = 1) :
    (AEP.joinPerformersApplicants P A).count (p, a) =
      (A.filter (fun x => p.first_name_clean = x.first_name_clean ∧
        p.last_name_clean = x.last_name_clean)).count a := by
  induction P with
  | nil => simp at hP
  | cons q rest ih =>
    rw [List.count_cons] at hP
    unfold AEP.joinPerformersApplicants at ih ⊢
    rw [List.flatMap_cons, List.count_append]
    by_cases hq : q = p
    · subst hq
      simp only [beq_self_eq_true, if_pos] at hP
      have hnot : q ∉ rest := List.count_eq_zero.mp (by omega)
      have hz : (rest.flatMap (fun p' =>
          (A.filter (fun x => p'.first_name_clean = x.first_name_clean ∧
            p'.last_name_clean = x.last_name_clean)).map (fun a' => (p', a')))).count
          (q, a) = 0 := by
        rw [List.count_eq_zero]
        intro hm
        obtain ⟨p', hp', hmem⟩ := List.mem_flatMap.mp hm
        obtain ⟨a', -, heq⟩ := List.mem_map.mp hmem
        simp only [Prod.mk.injEq] at heq
        rw [heq.1] at hp'
        exact hnot hp'
      have hcm : ∀ (l : List AEP.Applicant),
          (l.map (fun a' => (q, a'))).count (q, a) = l.count a := by
        intro l
        induction l with
        | nil => rfl
        | cons x xs ihx =>
          have hcond : ((q, x) == (q, a)) = (x == a) := by
            rw [Bool.eq_iff_iff]
            simp [beq_iff_eq, Prod.mk.injEq]
          rw [List.map_cons, List.count_cons, List.count_cons, ihx, hcond]
      rw [hz, Nat.add_zero]
      exact hcm _
    · have hzq : ((A.filter (fun x => q.first_name_clean = x.first_name_clean ∧
          q.last_name_clean = x.last_name_clean)).map (fun a' => (q, a'))).count
          (p, a) = 0 := by
        rw [List.count_eq_zero]
        intro hm
        obtain ⟨a', -, heq⟩ := List.mem_map.mp hm
        simp only [Prod.mk.injEq] at heq
        exact hq heq.1
      have hbq : (q == p) = false := by simp [hq]
      rw [hbq] at hP
      simp only [if_neg Bool.false_ne_true] at hP
      rw [hzq, ih (by omega), Nat.zero_add]

/-- Claim C5: the record linker's matched output is the inner join of
performers and applicants on the normalized (uppercased,
whitespace-trimmed) name keys, restricted to joined rows whose
application date strictly precedes the performer's earliest performance
date: a pair is in the output exactly when both rows are present, the
keys agree and the date filter passes; a pair whose application date is
equal to or after the first performance date is excluded; a uniquely
matching pair appears exactly once; on success the analyzer stores
exactly this output (projected onto the matched-candidate columns); and
both the loader and the applicant preparation compute the join keys as
`cleanName` (strip then uppercase) of the raw name fields. -/
theorem match_pairs_spec :
    ∀ (P : List AEP.Performer) (A : List AEP.Applicant),
      (∀ p a, (p, a) ∈ AEP.matchPairs P A ↔
        p ∈ P ∧ a ∈ A ∧ p.first_name_clean = a.first_name_clean ∧
        p.last_name_clean = a.last_name_clean ∧
        AEP.appliedBefore a.application_date p.first_performance_date = true) ∧
      (∀ p a, P.count p = 1 → A.count a = 1 →
        p.first_name_clean = a.first_name_clean →
        p.last_name_clean = a.last_name_clean →
        AEP.appliedBefore a.application_date p.first_performance_date = true →
        (AEP.matchPairs P A).count (p, a) = 1) ∧
      (∀ p a, (p, a) ∈ AEP.matchPairs P A →
        ∀ d, p.first_performance_date = some d → a.application_date < d) ∧
      (∀ m, AEP.match_performers_to_applicants ⟨some P, some A, m⟩ =
        .ok ⟨some P, some A,
          some ((AEP.matchPairs P A).map AEP.toMatchedCandidate)⟩) ∧
      (∀ (rows : List AEP.CleanRow), ∀ prf ∈ AEP.load_aep_performance_data rows,
        prf.first_name_clean = AEP.cleanName prf.agent_first_name ∧
        prf.last_name_clean = AEP.cleanName prf.agent_last_name) ∧
      (∀ (l : List AEP.Applicant), ∀ ap ∈ AEP.prepare_applicants l,
        ap.first_name_clean = AEP.cleanName ap.first_name ∧
        ap.last_name_clean = AEP.cleanName ap.last_name) := by
  intro P A
  have hmem : ∀ p a, (p, a) ∈ AEP.matchPairs P A ↔
      p ∈ P ∧ a ∈ A ∧ p.first_name_clean = a.first_name_clean ∧
      p.last_name_clean = a.last_name_clean ∧
      AEP.appliedBefore a.application_date p.first_performance_date = true := by
    intro p a
    unfold AEP.matchPairs AEP.joinPerformersApplicants
    constructor
    · intro hm
      obtain ⟨hj, hd⟩ := List.mem_filter.mp hm
      obtain ⟨p', hp', hmem2⟩ := List.mem_flatMap.mp hj
      obtain ⟨a', ha', heq⟩ := List.mem_map.mp hmem2
      simp only [Prod.mk.injEq] at heq
      obtain ⟨h1, h2⟩ := heq
      subst h1
      subst h2
      obtain ⟨haA, hkeys⟩ := List.mem_filter.mp ha'
      simp only [decide_eq_true_eq] at hkeys
      exact ⟨hp', haA, hkeys.1, hkeys.2, hd⟩
    · rintro ⟨hp, ha, hk1, hk2, hd⟩
      refine List.mem_filter.mpr ⟨?_, hd⟩
      refine List.mem_flatMap.mpr ⟨p, hp, ?_⟩
      refine List.mem_map.mpr ⟨a, ?_, rfl⟩
      refine List.mem_filter.mpr ⟨ha, ?_⟩
      simp only [decide_eq_true_eq]
      exact ⟨hk1, hk2⟩
  refine ⟨hmem, ?_, ?_, ?_, ?_, ?_⟩
  · intro p a hP hA hk1 hk2 hd
    have hjoin := count_joinPerformersApplicants P A p a hP
    have hfilter : (A.filter (fun x => p.first_name_clean = x.first_name_clean ∧
        p.last_name_clean = x.last_name_clean)).count a = 1 := by
      rw [List.count_filter (by simp only [decide_eq_true_eq]; exact ⟨hk1, hk2⟩)]
      exact hA
    have hcf : List.count (p, a) (List.filter
        (fun pa : AEP.Performer × AEP.Applicant =>
          AEP.appliedBefore pa.2.application_date pa.1.first_performance_date)
        (AEP.joinPerformersApplicants P A)) =
        List.count (p, a) (AEP.joinPerformersApplicants P A) :=
      List.count_filter hd
    unfold AEP.matchPairs
    rw [hcf, hjoin, hfilter]
  · intro p a hm d hdate
    have hd := ((hmem p a).mp hm).2.2.2.2
    rw [hdate] at hd
    unfold AEP.appliedBefore at hd
    simpa using hd
  · intro m
    rfl
  · intro rows prf hprf
    unfold AEP.load_aep_performance_data at hprf
    obtain ⟨kg, -, rfl⟩ := List.mem_map.mp hprf
    exact ⟨rfl, rfl⟩
  · intro l ap hap
    obtain ⟨b, -, rfl⟩ := List.mem_map.mp hap
    exact ⟨rfl, rfl⟩

/-- Witness for the Claim C5 theorem: the claim's Jane Doe example — an
applicant applying 2019-05-01 matched against a performer whose earliest
performance date is 2020-01-01 appears exactly once; with earliest date
2019-04-01 (before the application) the pair is excluded. -/
theorem match_pairs_spec_witness :
    (AEP.matchPairs
        [⟨"Jane", "Doe", some 20200101, none, none, 0, 0, "JANE", "DOE"⟩]
        [⟨1, "Jane", "Doe", "jane@example.com", 20190501, "AEP", "JANE", "DOE"⟩]).count
      (⟨"Jane", "Doe", some 20200101, none, none, 0, 0, "JANE", "DOE"⟩,
       ⟨1, "Jane", "Doe", "jane@example.com", 20190501, "AEP", "JANE", "DOE"⟩) = 1 ∧
    (⟨"Jane", "Doe", some 20190401, none, none, 0, 0, "JANE", "DOE"⟩,
     (⟨1, "Jane", "Doe", "jane@example.com", 20190501, "AEP", "JANE", "DOE"⟩ :
        AEP.Applicant)) ∉
      AEP.matchPairs
        [⟨"Jane", "Doe", some 20190401, none, none, 0, 0, "JANE", "DOE"⟩]
        [⟨1, "Jane", "Doe", "jane@example.com", 20190501, "AEP", "JANE", "DOE"⟩] := by
  constructor
  · exact (match_pairs_spec
      [⟨"Jane", "Doe", some 20200101, none, none, 0, 0, "JANE", "DOE"⟩]
      [⟨1, "Jane", "Doe", "jane@example.com", 20190501, "AEP", "JANE", "DOE"⟩]).2.1
      _ _ (by decide) (by decide) rfl rfl (by decide)
  · intro hm
    have h := ((match_pairs_spec
      [⟨"Jane", "Doe", some 20190401, none, none, 0, 0, "JANE", "DOE"⟩]
      [⟨1, "Jane", "Doe", "jane@example.com", 20190501, "AEP", "JANE", "DOE"⟩]).1
      _ _).mp hm
    exact absurd h.2.2.2.2 (by decide)

unseal List.mergeSort List.merge in
/-- Witness for the Claim C4 theorem on a concrete summary set: with an
agent at 9 days worked (excluded despite composite 99) and two qualified
agents, the ranked output for K = 5 is exactly the qualified agents, and
for K = 1 the omitted qualified agent scores no higher than the kept
one. -/
theorem identify_top_performers_spec_witness :
    ((AEP.identify_top_performers 5
        [⟨"X", "X", "X", 9, none, none, 0, 0, 0, 0, 0, 0, 0, 99⟩,
         ⟨"Y", "Y", "Y", 12, none, none, 0, 0, 0, 0, 0, 0, 0, 1⟩,
         ⟨"Z", "Z", "Z", 20, none, none, 0, 0, 0, 0, 0, 0, 0, 3⟩]).map Prod.snd).Perm
      ([⟨"X", "X", "X", 9, none, none, 0, 0, 0, 0, 0, 0, 0, 99⟩,
        ⟨"Y", "Y", "Y", 12, none, none, 0, 0, 0, 0, 0, 0, 0, 1⟩,
        ⟨"Z", "Z", "Z", 20, none, none, 0, 0, 0, 0, 0, 0, 0, 3⟩].filter
          (fun a => 10 ≤ a.days_worked)) ∧
    (AEP.AgentSummary.mk "Y" "Y" "Y" 12 none none 0 0 0 0 0 0 0
        1).composite_performance_score ≤
      (AEP.AgentSummary.mk "Z" "Z" "Z" 20 none none 0 0 0 0 0 0 0
        3).composite_performance_score := by
  constructor
  · exact (identify_top_performers_spec 5
      [⟨"X", "X", "X", 9, none, none, 0, 0, 0, 0, 0, 0, 0, 99⟩,
       ⟨"Y", "Y", "Y", 12, none, none, 0, 0, 0, 0, 0, 0, 0, 1⟩,
       ⟨"Z", "Z", "Z", 20, none, none, 0, 0, 0, 0, 0, 0, 0, 3⟩]).2.2.2.2.2.1
      (by decide)
  · exact (identify_top_performers_spec 1
      [⟨"X", "X", "X", 9, none, none, 0, 0, 0, 0, 0, 0, 0, 99⟩,
       ⟨"Y", "Y", "Y", 12, none, none, 0, 0, 0, 0, 0, 0, 0, 1⟩,
       ⟨"Z", "Z", "Z", 20, none, none, 0, 0, 0, 0, 0, 0, 0, 3⟩]).2.2.2.2.2.2.1
      ⟨"Y", "Y", "Y", 12, none, none, 0, 0, 0, 0, 0, 0, 0, 1⟩ (by decide)
      (by decide)
      ⟨"Z", "Z", "Z", 20, none, none, 0, 0, 0, 0, 0, 0, 0, 3⟩ (by decide)

unseal AEP.uniqueKeys in
/-- Claim C2 (counterexample): the aggregator rounds the composite to 4
decimal places (`.round(4)`), so the stored composite can differ from
the unrounded weighted formula: a group whose only row has performance
score 85.333 (and zero goal rate, zero hourly rate, handle time 600)
stores composite 0.256, but the formula value is 0.255999. -/
theorem c2_counterexample :
    (AEP.calculate_agent_performance_summary
      [⟨some "DOE,JANE", some "JANE", some "DOE", some 1, 0, 0, 85.333, 0, 600⟩]).map
        (fun s => (s.overall_goal_achievement_rate, s.avg_performance_score,
          s.avg_hourly_rate, s.average_handle_time_seconds_mean,
          s.composite_performance_score)) = [(0, 85.333, 0, 600, 0.256)] ∧
    (0.256 : ℚ) ≠
      0 * 0.4 + 85.333 / 100 * 0.3 + 0 / 20 * 0.2 + (1 - 600 / 600) * 0.1 := by
  have hs : AEP.calculate_agent_performance_summary
      [⟨some "DOE,JANE", some "JANE", some "DOE", some 1, 0, 0, 85.333, 0, 600⟩] =
      [AEP.mkAgentSummary ("DOE,JANE", "JANE", "DOE")
        [⟨some "DOE,JANE", some "JANE", some "DOE", some 1, 0, 0, 85.333, 0, 600⟩]] := rfl
  constructor
  · rw [hs, List.map_cons, List.map_nil]
    norm_num [AEP.mkAgentSummary, AEP.qmean, AEP.roundTo, AEP.roundHalfEven]
  · norm_num

/-- Claim C2 (amended): for every agent group, the aggregator's composite
score equals the fixed weighted combination `0.4 × goal-achievement rate
+ 0.3 × (mean performance score / 100) + 0.2 × (mean hourly rate / 20) +
0.1 × (1 − mean handle-time seconds / 600)` of the group's stored
aggregates, rounded to 4 decimal places (`.round(4)`, half to even),
with no clamping of any term; for goal rate 0.9, mean performance 85,
mean hourly rate 12 and mean handle time 300 the composite equals 0.785
exactly (the rounding is the identity there). -/
theorem composite_performance_score_formula :
    ∀ (rows : List AEP.SemRow), ∀ s ∈ AEP.calculate_agent_performance_summary rows,
      s.composite_performance_score =
        AEP.roundTo 4 (s.overall_goal_achievement_rate * 0.4 +
          s.avg_performance_score / 100 * 0.3 +
          s.avg_hourly_rate / 20 * 0.2 +
          (1 - s.average_handle_time_seconds_mean / 600) * 0.1) := by
  intro rows s hs
  obtain ⟨kg, -, rfl⟩ := List.mem_map.mp hs
  rfl

unseal AEP.uniqueKeys in
/-- Witness for the amended Claim C2 theorem: the claim's own example —
a group with goal-achievement rate 0.9, mean performance score 85, mean
hourly rate 12 and mean handle time 300 seconds — has composite score
exactly 0.785. -/
theorem composite_performance_score_formula_witness :
    (AEP.calculate_agent_performance_summary
      [⟨some "DOE,JANE", some "JANE", some "DOE", some 1, 10, 0.9, 85, 12, 300⟩]).map
        (fun s => s.composite_performance_score) = [(0.785 : ℚ)] := by
  have hs : AEP.calculate_agent_performance_summary
      [⟨some "DOE,JANE", some "JANE", some "DOE", some 1, 10, 0.9, 85, 12, 300⟩] =
      [AEP.mkAgentSummary ("DOE,JANE", "JANE", "DOE")
        [⟨some "DOE,JANE", some "JANE", some "DOE", some 1, 10, 0.9, 85, 12, 300⟩]] := rfl
  have h := composite_performance_score_formula
    [⟨some "DOE,JANE", some "JANE", some "DOE", some 1, 10, 0.9, 85, 12, 300⟩]
    (AEP.mkAgentSummary ("DOE,JANE", "JANE", "DOE")
      [⟨some "DOE,JANE", some "JANE", some "DOE", some 1, 10, 0.9, 85, 12, 300⟩])
    (by rw [hs]; exact List.mem_cons_self _ _)
  rw [hs, List.map_cons, List.map_nil, h]
  norm_num [AEP.mkAgentSummary, AEP.qmean, AEP.roundTo, AEP.roundHalfEven]

/-- Claim C8: the derived `calls_per_hour` is total: it equals
`3600 / handle_time` for strictly positive finite handle time and the
finite value 0 for zero, negative, null (NaN) or infinite handle time;
the result is never NaN or infinite, so the division-by-zero branch of
the unguarded `3600 / aht` is never the produced result. -/
theorem calls_per_hour_total :
    (∀ q : ℚ, AEP.calls_per_hour (.fin q) =
      (if 0 < q then .fin (3600 / q) else .fin 0)) ∧
    AEP.calls_per_hour (.fin 0) = .fin 0 ∧
    AEP.calls_per_hour .nan = .fin 0 ∧
    AEP.calls_per_hour .posInf = .fin 0 ∧
    AEP.calls_per_hour .negInf = .fin 0 ∧
    (∀ v : AEP.FloatVal, AEP.calls_per_hour v ≠ .nan ∧
      AEP.calls_per_hour v ≠ .posInf ∧ AEP.calls_per_hour v ≠ .negInf) := by
  have key : ∀ q : ℚ, AEP.calls_per_hour (.fin q) =
      (if 0 < q then .fin (3600 / q) else .fin 0) := by
    intro q
    by_cases hq : 0 < q
    · have hne : q ≠ 0 := ne_of_gt hq
      simp [AEP.calls_per_hour, AEP.FloatVal.gtZero, AEP.FloatVal.ltInf,
        AEP.fdiv, hq, hne]
    · simp [AEP.calls_per_hour, AEP.FloatVal.gtZero, AEP.FloatVal.ltInf, hq]
  refine ⟨key, by simpa using key 0, by decide, by decide, by decide, fun v => ?_⟩
  cases v with
  | nan => exact ⟨by decide, by decide, by decide⟩
  | posInf => exact ⟨by decide, by decide, by decide⟩
  | negInf => exact ⟨by decide, by decide, by decide⟩
  | fin q =>
    rw [key q]
    by_cases hq : 0 < q <;> simp [hq]
